import Mathlib

/-!
Verification of the sparse-matrix program (`src/sparse_matrix.js`).

The program stores a sparse matrix as dimensions plus a hand-written `Map`
(a JavaScript object used as an insertion-ordered association store) from
string keys `"row,col"` to integer values.  We embed the `Map` as an
association list over the decoded keys `(row, col) : Int × Int`: the string
key built by `setElement` is the comma-separated decimal rendering of the
two integers, which is an injective encoding, and every consumer decodes it
back with `key.split(',').map(Number)`, so working with the pair directly is
faithful.  JavaScript objects iterate non-index string keys (all keys here
contain a comma) in insertion order, which the list order models.

Numbers are embedded as `Int`.  JavaScript `parseInt` returns `NaN` on a
string with no leading digits; since `NaN` does not inhabit `Int`, the
parser surfaces that case as the error `Err.NotANumber` (the name the
design documents give this failure).  No claim verified below depends on
behaviour after a `NaN` has been produced.
-/

namespace SparseMatrix

/-- The error kinds of the program.  The source throws
`Error("Matrix dimensions do not match for ...")` (DimensionMismatch),
`Error("Invalid file format")` (FormatError); `NotANumber` marks a numeric
field whose `parseInt` yields `NaN`, and `TypeErr` models the `TypeError`
JavaScript raises when `lines[1]` is `undefined` (fewer than two lines). -/
inductive Err where
  | DimensionMismatch
  | FormatError
  | NotANumber
  | TypeErr
deriving Repr, DecidableEq

/-! ## Character and string primitives (JavaScript built-ins)

Strings are embedded as `List Char`. -/

/-- The whitespace characters relevant to the inputs considered; JavaScript
`trim` also strips other Unicode whitespace, which never occurs here. -/
def wsChar (c : Char) : Bool :=
  c = ' ' || c = '\t' || c = '\n' || c = '\r'

/-- Decimal digit test, `'0'` through `'9'`. -/
def isDigitCh (c : Char) : Bool :=
  48 ≤ c.toNat && c.toNat ≤ 57

/-- The decimal digit character for `d < 10`. -/
def decChar (d : Nat) : Char := Char.ofNat (48 + d)

/-- The numeric value of a digit character. -/
def charVal (c : Char) : Nat := c.toNat - 48

/-- Big-endian decimal digits of a natural number, accumulator form.
The fuel argument only drives termination; `natDec` supplies enough. -/
def natDecAux : Nat → Nat → List Char → List Char
  | 0, _, acc => acc
  | fuel + 1, n, acc =>
    if n < 10 then decChar n :: acc
    else natDecAux fuel (n / 10) (decChar (n % 10) :: acc)

/-- Decimal rendering of a natural number (JavaScript number-to-string for
integral values). -/
def natDec (n : Nat) : List Char := natDecAux (n + 1) n []

/-- Decimal rendering of an integer, as JavaScript template interpolation
`${i}` produces for integral numbers. -/
def intDec (i : Int) : List Char :=
  if i < 0 then '-' :: natDec i.natAbs else natDec i.natAbs

/-- JavaScript `String.prototype.trim`. -/
def jsTrim (s : List Char) : List Char :=
  ((s.dropWhile wsChar).reverse.dropWhile wsChar).reverse

/-- JavaScript `String.prototype.split` with a single-character separator:
keeps empty segments, yields one segment even on the empty string. -/
def jsSplitOn (sep : Char) : List Char → List (List Char)
  | [] => [[]]
  | c :: rest =>
    if c = sep then [] :: jsSplitOn sep rest
    else
      match jsSplitOn sep rest with
      | [] => [[c]]
      | seg :: segs => (c :: seg) :: segs

/-- JavaScript `Array.prototype.join` with a single-character separator. -/
def jsJoinSep (sep : Char) : List (List Char) → List Char
  | [] => []
  | [l] => l
  | l :: ls => l ++ sep :: jsJoinSep sep ls

/-- JavaScript `String.prototype.startsWith`. -/
def jsStartsWith (s pre : List Char) : Bool :=
  decide (s.take pre.length = pre)

/-- JavaScript `String.prototype.indexOf` for a single character;
`none` plays the role of the sentinel `-1`. -/
def jsIndexOf (s : List Char) (c : Char) : Option Nat :=
  match s with
  | [] => none
  | a :: rest => if a = c then some 0 else (jsIndexOf rest c).map (· + 1)

/-- JavaScript `String.prototype.slice` for the non-negative indices the
source uses. -/
def jsSlice (s : List Char) (i j : Nat) : List Char := (s.take j).drop i

/-- Leading-digit parse used by `parseInt` after sign handling:
`none` models `NaN` (no digits). `parseInt` stops at the first
non-digit character. -/
def parseDigits (s : List Char) : Option Nat :=
  let ds := s.takeWhile isDigitCh
  if ds.isEmpty then none
  else some (ds.foldl (fun acc c => acc * 10 + charVal c) 0)

/-- JavaScript `parseInt` with no radix argument, restricted to the decimal
case: leading whitespace skipped, optional sign, then leading decimal
digits.  (The `0x` hexadecimal auto-detection of `parseInt` is not
modelled; no input considered in this development begins with `0x`.) -/
def jsParseInt (s : List Char) : Option Int :=
  match s.dropWhile wsChar with
  | [] => none
  | c :: rest =>
    if c = '-' then (parseDigits rest).map (fun n => -(Int.ofNat n))
    else if c = '+' then (parseDigits rest).map (fun n => Int.ofNat n)
    else (parseDigits (c :: rest)).map (fun n => Int.ofNat n)

/-! ## The `Map` class (src/sparse_matrix.js lines 7–50)

A JavaScript object used as an insertion-ordered store.  Keys are the
decoded `(row, col)` pairs (see the header comment). -/

/-- `Map.get`: the value at a key, `none` for `undefined`. -/
def mapGet : List ((Int × Int) × Int) → (Int × Int) → Option Int
  | [], _ => none
  | kv :: rest, k => if kv.1 = k then some kv.2 else mapGet rest k

/-- `Map.has` (`hasOwnProperty`): a key is present exactly when `get` does
not return `undefined` (stored values are never `undefined`). -/
def mapHas (s : List ((Int × Int) × Int)) (k : Int × Int) : Bool :=
  (mapGet s k).isSome

/-- `Map.set` (`this.store[key] = value`): overwrite in place if the key
exists, otherwise append (JavaScript property insertion order). -/
def mapSet : List ((Int × Int) × Int) → (Int × Int) → Int → List ((Int × Int) × Int)
  | [], k, v => [(k, v)]
  | kv :: rest, k, v => if kv.1 = k then (k, v) :: rest else kv :: mapSet rest k v

/-! ## The `Matrix` class (src/sparse_matrix.js lines 66–241) -/

/-- Sparse matrix: dimensions plus the element `Map`. -/
structure Matrix where
  numRows : Int
  numCols : Int
  elements : List ((Int × Int) × Int)
deriving Repr, DecidableEq

/-- `new Matrix(numRows, numCols)` — empty element map. -/
def Matrix.new (numRows numCols : Int) : Matrix :=
  { numRows := numRows, numCols := numCols, elements := [] }

/-- `Matrix.setElement` (lines 105–109): store only when the value is
non-zero; a zero value leaves the map untouched (in particular it does not
delete an existing entry). -/
def Matrix.setElement (m : Matrix) (row col value : Int) : Matrix :=
  if value ≠ 0 then { m with elements := mapSet m.elements (row, col) value }
  else m

/-- The JavaScript coercion `x || 0`: `undefined` (and a stored `0`,
which is falsy) become `0`. -/
def orZero : Option Int → Int
  | none => 0
  | some v => if v = 0 then 0 else v

/-- `Matrix.getElement` (lines 117–119): `this.elements.get(key) || 0`. -/
def Matrix.getElement (m : Matrix) (row col : Int) : Int :=
  orZero (mapGet m.elements (row, col))

/-- First pass of `add`/`subtract` (lines 134–138 and 163–167): for each
entry of `this`, combine with `other.getElement` by `op` and store. -/
def pass1Step (b : Matrix) (op : Int → Int → Int)
    (result : Matrix) (kv : (Int × Int) × Int) : Matrix :=
  result.setElement kv.1.1 kv.1.2 (op kv.2 (b.getElement kv.1.1 kv.1.2))

/-- Second pass of `add`/`subtract` (lines 140–145 and 169–174): for each
entry of `other` whose key is not already present in the result, store the
image of the entry's value under `g` (`g = id` for add, negation for
subtract). -/
def pass2Step (g : Int → Int)
    (result : Matrix) (kv : (Int × Int) × Int) : Matrix :=
  if mapHas result.elements kv.1 then result
  else result.setElement kv.1.1 kv.1.2 (g kv.2)

/-- `Matrix.add` (lines 126–148). -/
def Matrix.add (a b : Matrix) : Except Err Matrix :=
  if a.numRows ≠ b.numRows ∨ a.numCols ≠ b.numCols then
    .error .DimensionMismatch
  else
    .ok (b.elements.foldl (pass2Step (fun v => v))
      (a.elements.foldl (pass1Step b (fun v w => v + w))
        (Matrix.new a.numRows a.numCols)))

/-- `Matrix.subtract` (lines 155–177). -/
def Matrix.subtract (a b : Matrix) : Except Err Matrix :=
  if a.numRows ≠ b.numRows ∨ a.numCols ≠ b.numCols then
    .error .DimensionMismatch
  else
    .ok (b.elements.foldl (pass2Step (fun v => -v))
      (a.elements.foldl (pass1Step b (fun v w => v - w))
        (Matrix.new a.numRows a.numCols)))

/-- Inner step of `multiply` (lines 193–200): when `colA == rowB`,
accumulate `currentVal + product` through `setElement`. -/
def mulStep (kvA : (Int × Int) × Int)
    (result : Matrix) (kvB : (Int × Int) × Int) : Matrix :=
  if kvA.1.2 = kvB.1.1 then
    result.setElement kvA.1.1 kvB.1.2
      (result.getElement kvA.1.1 kvB.1.2 + kvA.2 * kvB.2)
  else result

/-- `Matrix.multiply` (lines 184–204). -/
def Matrix.multiply (a b : Matrix) : Except Err Matrix :=
  if a.numCols ≠ b.numRows then .error .DimensionMismatch
  else
    .ok (a.elements.foldl
      (fun result kvA => b.elements.foldl (mulStep kvA) result)
      (Matrix.new a.numRows b.numCols))

/-! ## The text codec (`fromFile` minus the file read, and the
serialization in `main`) -/

/-- The literal `'rows='`. -/
def rowsPfx : List Char := ['r', 'o', 'w', 's', '=']

/-- The literal `'cols='`. -/
def colsPfx : List Char := ['c', 'o', 'l', 's', '=']

/-- `Matrix.extractNumber` (lines 212–216).  Since the line is known to
start with the prefix, `line.replace(prefix, '')` removes exactly the
leading occurrence, i.e. drops `prefix.length` characters.  A `NaN` result
of `parseInt` is surfaced as `NotANumber` (see the header comment). -/
def extractNumber (line pfx : List Char) : Except Err Int :=
  if jsStartsWith line pfx then
    match jsParseInt (jsTrim (line.drop pfx.length)) with
    | some n => .ok n
    | none => .error .NotANumber
  else .error .FormatError

/-- `Matrix.extractValues` (lines 223–240): find the parentheses, slice the
interior, split on commas, require exactly three components, parse each
after trimming.  The three-element match is the `values.length !== 3`
check. -/
def extractValues (line : List Char) : Except Err (Int × Int × Int) :=
  match jsIndexOf line '(' , jsIndexOf line ')' with
  | some si, some ei =>
    match jsSplitOn ',' (jsSlice line (si + 1) ei) with
    | [s0, s1, s2] =>
      match jsParseInt (jsTrim s0), jsParseInt (jsTrim s1), jsParseInt (jsTrim s2) with
      | some r, some c, some v => .ok (r, c, v)
      | _, _, _ => .error .NotANumber
    | _ => .error .FormatError
  | _, _ => .error .FormatError

/-- The element-line loop of `fromFile` (lines 88–94): trim each line,
skip blanks, extract the triple, `setElement`. -/
def parseLines (dataLines : List (List Char)) (m : Matrix) : Except Err Matrix :=
  match dataLines with
  | [] => .ok m
  | line :: rest =>
    if jsTrim line = [] then parseLines rest m
    else
      match extractValues (jsTrim line) with
      | .ok (r, c, v) => parseLines rest (m.setElement r c v)
      | .error e => .error e

/-- `Matrix.fromFile` (lines 78–97) minus the file read: trim the content,
split into lines, read the two headers, then the element lines.  When the
split yields fewer than two lines, `lines[1]` is `undefined` and
`undefined.startsWith` raises a `TypeError` (after the first header has
already been extracted), modelled by `Err.TypeErr`. -/
def parseMatrix (content : List Char) : Except Err Matrix :=
  match jsSplitOn '\n' (jsTrim content) with
  | [] => .error .TypeErr
  | l0 :: rest =>
    match extractNumber l0 rowsPfx with
    | .error e => .error e
    | .ok numRows =>
      match rest with
      | [] => .error .TypeErr
      | l1 :: dataLines =>
        match extractNumber l1 colsPfx with
        | .error e => .error e
        | .ok numCols => parseLines dataLines (Matrix.new numRows numCols)

/-- One output line of the serialization in `main` (line 281):
the template `(${row}, ${col}, ${value})`, where `row` and `col` are the
two halves of the stored key and so render as the decimal forms of the
integers. -/
def elemLine (kv : (Int × Int) × Int) : List Char :=
  '(' :: jsJoinSep ',' [intDec kv.1.1, ' ' :: intDec kv.1.2, ' ' :: intDec kv.2] ++ [')']

/-- The serialization in `main` (lines 278–284): the two header lines
followed by one line per element in map iteration (insertion) order,
joined with newlines. -/
def serialize (m : Matrix) : List Char :=
  jsJoinSep '\n'
    ((rowsPfx ++ intDec m.numRows) :: (colsPfx ++ intDec m.numCols) ::
      m.elements.map elemLine)

/-- No entry of the element map holds the value `0`. -/
def NoZero (m : Matrix) : Prop := ∀ kv ∈ m.elements, kv.2 ≠ 0

instance (m : Matrix) : Decidable (NoZero m) := by
  unfold NoZero; infer_instance

instance {ε α : Type} [DecidableEq ε] [DecidableEq α] : DecidableEq (Except ε α) := fun x y =>
  match x, y with
  | .ok a, .ok b =>
    if h : a = b then .isTrue (by rw [h]) else .isFalse (by simp [h])
  | .error e, .error f =>
    if h : e = f then .isTrue (by rw [h]) else .isFalse (by simp [h])
  | .ok _, .error _ => .isFalse (by simp)
  | .error _, .ok _ => .isFalse (by simp)

/-! ## Lemmas about the `Map` model -/

theorem mapGet_set_self (s : List ((Int × Int) × Int)) (k : Int × Int) (v : Int) :
    mapGet (mapSet s k v) k = some v := by
  induction s with
  | nil => simp [mapSet, mapGet]
  | cons kv rest ih =>
    by_cases h : kv.1 = k <;> simp [mapSet, mapGet, h, ih]

theorem mapGet_set_other (s : List ((Int × Int) × Int)) (k k' : Int × Int) (v : Int)
    (h : k' ≠ k) : mapGet (mapSet s k v) k' = mapGet s k' := by
  induction s with
  | nil => simp only [mapSet, mapGet]; rw [if_neg (Ne.symm h)]
  | cons kv rest ih =>
    by_cases hk : kv.1 = k
    · subst hk
      simp only [mapSet, if_pos rfl, mapGet]
      rw [if_neg (fun hh => h hh.symm), if_neg (fun hh => h hh.symm)]
    · simp only [mapSet, if_neg hk, mapGet]
      by_cases hk' : kv.1 = k' <;> simp [hk', ih]

theorem mem_mapSet (s : List ((Int × Int) × Int)) (k : Int × Int) (v : Int)
    (kv : (Int × Int) × Int) (h : kv ∈ mapSet s k v) : kv ∈ s ∨ kv = (k, v) := by
  induction s with
  | nil => simp [mapSet] at h; simp [h]
  | cons p rest ih =>
    by_cases hp : p.1 = k
    · rw [mapSet, if_pos hp] at h
      rcases List.mem_cons.1 h with h1 | h1
      · right; exact h1
      · left; exact List.mem_cons_of_mem _ h1
    · rw [mapSet, if_neg hp] at h
      rcases List.mem_cons.1 h with h1 | h1
      · left; simp [h1]
      · rcases ih h1 with h2 | h2
        · left; exact List.mem_cons_of_mem _ h2
        · right; exact h2

theorem mapGet_eq_none_of_not_mem (s : List ((Int × Int) × Int)) (k : Int × Int)
    (h : k ∉ s.map Prod.fst) : mapGet s k = none := by
  induction s with
  | nil => rfl
  | cons kv rest ih =>
    simp only [List.map_cons, List.mem_cons, not_or] at h
    rw [mapGet, if_neg (fun hh => h.1 hh.symm)]
    exact ih h.2

theorem mapGet_none_of_get_none (s : List ((Int × Int) × Int)) (k : Int × Int)
    (h : mapGet s k = none) : k ∉ s.map Prod.fst := by
  induction s with
  | nil => simp
  | cons kv rest ih =>
    rw [mapGet] at h
    by_cases hk : kv.1 = k
    · simp [hk] at h
    · simp only [if_neg hk] at h
      simp only [List.map_cons, List.mem_cons, not_or]
      exact ⟨fun hh => hk hh.symm, ih h⟩

theorem mapSet_of_get_none (s : List ((Int × Int) × Int)) (k : Int × Int) (v : Int)
    (h : mapGet s k = none) : mapSet s k v = s ++ [(k, v)] := by
  induction s with
  | nil => rfl
  | cons kv rest ih =>
    rw [mapGet] at h
    by_cases hk : kv.1 = k
    · simp [hk] at h
    · simp only [if_neg hk] at h
      rw [mapSet, if_neg hk, List.cons_append, ih h]

theorem mapGet_append (s t : List ((Int × Int) × Int)) (k : Int × Int) :
    mapGet (s ++ t) k =
      match mapGet s k with
      | some v => some v
      | none => mapGet t k := by
  induction s with
  | nil => simp [mapGet]
  | cons kv rest ih =>
    by_cases hk : kv.1 = k <;> simp [mapGet, hk, ih]

/-! ## Lemmas about `setElement` and `getElement` -/

theorem orZero_some (v : Int) : orZero (some v) = v := by
  rw [orZero]; split <;> omega

theorem setElement_numRows (m : Matrix) (r c v : Int) :
    (m.setElement r c v).numRows = m.numRows := by
  rw [Matrix.setElement]; split <;> rfl

theorem setElement_numCols (m : Matrix) (r c v : Int) :
    (m.setElement r c v).numCols = m.numCols := by
  rw [Matrix.setElement]; split <;> rfl

theorem mapGet_setElement_self (m : Matrix) (r c v : Int) :
    mapGet (m.setElement r c v).elements (r, c) =
      if v = 0 then mapGet m.elements (r, c) else some v := by
  rw [Matrix.setElement]
  by_cases h : v = 0
  · simp [h]
  · simp [h, mapGet_set_self]

theorem mapGet_setElement_of_ne (m : Matrix) (r c v : Int) (k : Int × Int)
    (h : k ≠ (r, c)) :
    mapGet (m.setElement r c v).elements k = mapGet m.elements k := by
  rw [Matrix.setElement]
  by_cases hv : v = 0
  · simp [hv]
  · simp [hv, mapGet_set_other _ _ _ _ h]

theorem noZero_setElement (m : Matrix) (r c v : Int) (h : NoZero m) :
    NoZero (m.setElement r c v) := by
  rw [Matrix.setElement]
  by_cases hv : v = 0
  · simpa [hv] using h
  · intro kv hkv
    simp only [if_pos hv] at hkv
    rcases mem_mapSet _ _ _ _ hkv with h1 | h1
    · exact h kv h1
    · rw [h1]; exact hv

/-! ## Characterization of the two iteration passes of `add`/`subtract` -/

/-- After the first pass over the entries of `this` (with combining
function `op`), the result holds `op v b(k)` at each key `k` of the pass
list with stored value `v` — unless that combination is `0`, in which case
(zero suppression) the key keeps whatever the accumulator held. -/
theorem foldl_pass1_get (b : Matrix) (op : Int → Int → Int)
    (l : List ((Int × Int) × Int)) (acc : Matrix) (k : Int × Int)
    (hnd : (l.map Prod.fst).Nodup) :
    mapGet (l.foldl (pass1Step b op) acc).elements k =
      match mapGet l k with
      | some v =>
        if op v (b.getElement k.1 k.2) = 0 then mapGet acc.elements k
        else some (op v (b.getElement k.1 k.2))
      | none => mapGet acc.elements k := by
  induction l generalizing acc with
  | nil => rfl
  | cons kv rest ih =>
    simp only [List.map_cons, List.nodup_cons] at hnd
    rw [List.foldl_cons]
    by_cases hk : kv.1 = k
    · subst hk
      have hrest : mapGet rest kv.1 = none :=
        mapGet_eq_none_of_not_mem rest kv.1 hnd.1
      rw [ih (pass1Step b op acc kv) hnd.2]
      simp only [hrest, mapGet, if_pos rfl]
      rw [pass1Step]
      by_cases hz : op kv.2 (b.getElement kv.1.1 kv.1.2) = 0
      · simp only [if_pos hz, Matrix.setElement, hz, ne_eq, not_true_eq_false, if_false]
        simp [hz]
      · simp only [if_neg hz, Matrix.setElement, ne_eq, hz, not_false_eq_true, if_true,
          Prod.mk.eta, mapGet_set_self]
        simp [hz]
    · rw [ih (pass1Step b op acc kv) hnd.2]
      have hacc : mapGet (pass1Step b op acc kv).elements k = mapGet acc.elements k := by
        rw [pass1Step]
        exact mapGet_setElement_of_ne acc kv.1.1 kv.1.2 _ k (fun hh => hk (by rw [hh]))
      simp only [hacc, mapGet, if_neg hk]

/-- After the second pass over the entries of `other`: a key already
present in the accumulator is untouched; a key absent from the accumulator
receives `g v` (suppressed when `g v = 0`). -/
theorem foldl_pass2_get (g : Int → Int)
    (l : List ((Int × Int) × Int)) (acc : Matrix) (k : Int × Int)
    (hnd : (l.map Prod.fst).Nodup) :
    mapGet (l.foldl (pass2Step g) acc).elements k =
      match mapGet l k with
      | some v =>
        match mapGet acc.elements k with
        | some w => some w
        | none => if g v = 0 then none else some (g v)
      | none => mapGet acc.elements k := by
  induction l generalizing acc with
  | nil => rfl
  | cons kv rest ih =>
    simp only [List.map_cons, List.nodup_cons] at hnd
    rw [List.foldl_cons]
    by_cases hk : kv.1 = k
    · subst hk
      have hrest : mapGet rest kv.1 = none :=
        mapGet_eq_none_of_not_mem rest kv.1 hnd.1
      rw [ih (pass2Step g acc kv) hnd.2]
      simp only [hrest, mapGet, if_pos rfl]
      rw [pass2Step, mapHas]
      rcases hget : mapGet acc.elements kv.1 with _ | w
      · simp only [hget, Option.isSome_none, Bool.false_eq_true, if_false]
        by_cases hz : g kv.2 = 0
        · simp only [if_pos hz, Matrix.setElement, hz, ne_eq, not_true_eq_false, if_false, hget]
          simp [hz]
        · simp only [if_neg hz, Matrix.setElement, ne_eq, hz, not_false_eq_true, if_true,
            Prod.mk.eta, mapGet_set_self]
          simp [hz]
      · simp only [hget, Option.isSome_some, if_true]
    · rw [ih (pass2Step g acc kv) hnd.2]
      have hacc : mapGet (pass2Step g acc kv).elements k = mapGet acc.elements k := by
        rw [pass2Step]
        split
        · rfl
        · exact mapGet_setElement_of_ne acc kv.1.1 kv.1.2 _ k (fun hh => hk (by rw [hh]))
      simp only [hacc, mapGet, if_neg hk]

/-! ## Dimension and zero-freeness preservation through folds -/

theorem foldl_dims {α : Type} (step : Matrix → α → Matrix)
    (hstep : ∀ acc x, (step acc x).numRows = acc.numRows ∧ (step acc x).numCols = acc.numCols)
    (l : List α) (acc : Matrix) :
    (l.foldl step acc).numRows = acc.numRows ∧ (l.foldl step acc).numCols = acc.numCols := by
  induction l generalizing acc with
  | nil => exact ⟨rfl, rfl⟩
  | cons x rest ih =>
    rw [List.foldl_cons]
    rcases ih (step acc x) with ⟨h1, h2⟩
    rcases hstep acc x with ⟨h3, h4⟩
    exact ⟨h1.trans h3, h2.trans h4⟩

theorem foldl_noZero {α : Type} (step : Matrix → α → Matrix)
    (hstep : ∀ acc x, NoZero acc → NoZero (step acc x))
    (l : List α) (acc : Matrix) (hacc : NoZero acc) :
    NoZero (l.foldl step acc) := by
  induction l generalizing acc with
  | nil => exact hacc
  | cons x rest ih => exact ih (step acc x) (hstep acc x hacc)

theorem pass1Step_dims (b : Matrix) (op : Int → Int → Int) (acc : Matrix)
    (kv : (Int × Int) × Int) :
    (pass1Step b op acc kv).numRows = acc.numRows ∧
      (pass1Step b op acc kv).numCols = acc.numCols := by
  rw [pass1Step]; exact ⟨setElement_numRows .., setElement_numCols ..⟩

theorem pass2Step_dims (g : Int → Int) (acc : Matrix) (kv : (Int × Int) × Int) :
    (pass2Step g acc kv).numRows = acc.numRows ∧
      (pass2Step g acc kv).numCols = acc.numCols := by
  rw [pass2Step]; split
  · exact ⟨rfl, rfl⟩
  · exact ⟨setElement_numRows .., setElement_numCols ..⟩

theorem pass1Step_noZero (b : Matrix) (op : Int → Int → Int) (acc : Matrix)
    (kv : (Int × Int) × Int) (h : NoZero acc) : NoZero (pass1Step b op acc kv) := by
  rw [pass1Step]; exact noZero_setElement _ _ _ _ h

theorem pass2Step_noZero (g : Int → Int) (acc : Matrix)
    (kv : (Int × Int) × Int) (h : NoZero acc) : NoZero (pass2Step g acc kv) := by
  rw [pass2Step]; split
  · exact h
  · exact noZero_setElement _ _ _ _ h

theorem mulStep_dims (kvA : (Int × Int) × Int) (acc : Matrix)
    (kvB : (Int × Int) × Int) :
    (mulStep kvA acc kvB).numRows = acc.numRows ∧
      (mulStep kvA acc kvB).numCols = acc.numCols := by
  rw [mulStep]; split
  · exact ⟨setElement_numRows .., setElement_numCols ..⟩
  · exact ⟨rfl, rfl⟩

theorem mulStep_noZero (kvA : (Int × Int) × Int) (acc : Matrix)
    (kvB : (Int × Int) × Int) (h : NoZero acc) : NoZero (mulStep kvA acc kvB) := by
  rw [mulStep]; split
  · exact noZero_setElement _ _ _ _ h
  · exact h

theorem new_noZero (r c : Int) : NoZero (Matrix.new r c) := by
  intro kv hkv; simp [Matrix.new] at hkv

/-- Element-loop invariant preservation for `fromFile` parsing. -/
theorem parseLines_noZero (l : List (List Char)) (m m' : Matrix)
    (hm : NoZero m) (h : parseLines l m = .ok m') : NoZero m' := by
  induction l generalizing m with
  | nil =>
    rw [parseLines] at h
    cases h
    exact hm
  | cons line rest ih =>
    rw [parseLines] at h
    by_cases ht : jsTrim line = []
    · rw [if_pos ht] at h
      exact ih m hm h
    · rw [if_neg ht] at h
      rcases hev : extractValues (jsTrim line) with e | ⟨r, c, v⟩
      · rw [hev] at h; cases h
      · rw [hev] at h
        exact ih _ (noZero_setElement _ _ _ _ hm) h

/-! ## Concrete matrices used in witnesses and counterexamples -/

/-- Matrix A of the spec scenario: 2×2 with `(0,0,5)`, `(1,1,3)`. -/
def matA : Matrix := ((Matrix.new 2 2).setElement 0 0 5).setElement 1 1 3

/-- Matrix B of the spec scenario: 2×2 with `(0,0,2)`, `(0,1,4)`. -/
def matB : Matrix := ((Matrix.new 2 2).setElement 0 0 2).setElement 0 1 4

/-- 1×1 matrix holding 5 at (0,0). -/
def cexA : Matrix := (Matrix.new 1 1).setElement 0 0 5

/-- 1×1 matrix holding −5 at (0,0). -/
def cexB : Matrix := (Matrix.new 1 1).setElement 0 0 (-5)

/-- 1×2 matrix with entries (0,0)=1 and (0,1)=1 (claim C4's A). -/
def c4A : Matrix := ((Matrix.new 1 2).setElement 0 0 1).setElement 0 1 1

/-- 2×1 matrix with entries (0,0)=5 and (1,0)=−5 (claim C4's B). -/
def c4B : Matrix := ((Matrix.new 2 1).setElement 0 0 5).setElement 1 0 (-5)

/-! ## Claim theorems -/

/-- C1 counterexample: for A = [[5]] and B = [[−5]] (matching 1×1
dimensions), `A.add(B).getElement(0,0)` is −5, not
`A.getElement(0,0) + B.getElement(0,0) = 0`: the zero sum is suppressed in
the first pass and the second pass re-inserts B's raw value. -/
theorem claim_C1_cex :
    cexA.numRows = cexB.numRows ∧ cexA.numCols = cexB.numCols ∧
    (cexA.add cexB).map (fun m => m.getElement 0 0) ≠
      Except.ok (cexA.getElement 0 0 + cexB.getElement 0 0) ∧
    (cexA.add cexB).map (fun m => m.getElement 0 0) = Except.ok (-5) ∧
    cexA.getElement 0 0 + cexB.getElement 0 0 = 0 := by decide

/-- C1 (amended): for matrices of matching dimensions (with the map
invariant of duplicate-free keys), `A.add(B)` succeeds with A's
dimensions, and `A.add(B).getElement(r,c) = A.getElement(r,c) +
B.getElement(r,c)` at every position except those where that sum is
exactly 0, where it is `B.getElement(r,c)` instead. -/
theorem claim_C1 (a b : Matrix)
    (hr : a.numRows = b.numRows) (hc : a.numCols = b.numCols)
    (ha : (a.elements.map Prod.fst).Nodup) (hb : (b.elements.map Prod.fst).Nodup) :
    ∃ m, a.add b = .ok m ∧ m.numRows = a.numRows ∧ m.numCols = a.numCols ∧
      ∀ r c : Int, m.getElement r c =
        if a.getElement r c + b.getElement r c = 0 then b.getElement r c
        else a.getElement r c + b.getElement r c := by
  rw [Matrix.add, if_neg (by push_neg; exact ⟨hr, hc⟩)]
  have h1 := foldl_dims (pass1Step b fun v w => v + w)
    (fun acc kv => pass1Step_dims b _ acc kv) a.elements
    (Matrix.new a.numRows a.numCols)
  have h2 := foldl_dims (pass2Step fun v => v)
    (fun acc kv => pass2Step_dims _ acc kv) b.elements
    (a.elements.foldl (pass1Step b fun v w => v + w) (Matrix.new a.numRows a.numCols))
  refine ⟨_, rfl, h2.1.trans h1.1, h2.2.trans h1.2, ?_⟩
  intro r c
  rw [Matrix.getElement]
  rw [foldl_pass2_get (fun v => v) b.elements _ (r, c) hb]
  rw [foldl_pass1_get b (fun v w => v + w) a.elements
    (Matrix.new a.numRows a.numCols) (r, c) ha]
  simp only [Matrix.getElement, Matrix.new, mapGet]
  rcases hga : mapGet a.elements (r, c) with _ | v <;>
    rcases hgb : mapGet b.elements (r, c) with _ | w <;>
    simp only [orZero] <;> split_ifs <;> simp [orZero] <;> omega

/-- C1 witness at the spec scenario matrices. -/
theorem claim_C1_witness :
    ∃ m, matA.add matB = .ok m ∧ m.numRows = matA.numRows ∧ m.numCols = matA.numCols ∧
      ∀ r c : Int, m.getElement r c =
        if matA.getElement r c + matB.getElement r c = 0 then matB.getElement r c
        else matA.getElement r c + matB.getElement r c :=
  claim_C1 matA matB (by decide) (by decide) (by decide) (by decide)

/-- C2 counterexample: for A = B = [[5]], `A.subtract(B).getElement(0,0)`
is −5, not `A.getElement(0,0) - B.getElement(0,0) = 0`. -/
theorem claim_C2_cex :
    (cexA.subtract cexA).map (fun m => m.getElement 0 0) ≠
      Except.ok (cexA.getElement 0 0 - cexA.getElement 0 0) ∧
    (cexA.subtract cexA).map (fun m => m.getElement 0 0) = Except.ok (-5) ∧
    cexA.getElement 0 0 - cexA.getElement 0 0 = 0 := by decide

/-- C2 (amended): for matrices of matching dimensions (with duplicate-free
keys), `A.subtract(B)` succeeds with A's dimensions, and
`A.subtract(B).getElement(r,c) = A.getElement(r,c) - B.getElement(r,c)` at
every position except those where that difference is exactly 0, where it
is `-B.getElement(r,c)` instead. -/
theorem claim_C2 (a b : Matrix)
    (hr : a.numRows = b.numRows) (hc : a.numCols = b.numCols)
    (ha : (a.elements.map Prod.fst).Nodup) (hb : (b.elements.map Prod.fst).Nodup) :
    ∃ m, a.subtract b = .ok m ∧ m.numRows = a.numRows ∧ m.numCols = a.numCols ∧
      ∀ r c : Int, m.getElement r c =
        if a.getElement r c - b.getElement r c = 0 then -(b.getElement r c)
        else a.getElement r c - b.getElement r c := by
  rw [Matrix.subtract, if_neg (by push_neg; exact ⟨hr, hc⟩)]
  have h1 := foldl_dims (pass1Step b fun v w => v - w)
    (fun acc kv => pass1Step_dims b _ acc kv) a.elements
    (Matrix.new a.numRows a.numCols)
  have h2 := foldl_dims (pass2Step fun v => -v)
    (fun acc kv => pass2Step_dims _ acc kv) b.elements
    (a.elements.foldl (pass1Step b fun v w => v - w) (Matrix.new a.numRows a.numCols))
  refine ⟨_, rfl, h2.1.trans h1.1, h2.2.trans h1.2, ?_⟩
  intro r c
  rw [Matrix.getElement]
  rw [foldl_pass2_get (fun v => -v) b.elements _ (r, c) hb]
  rw [foldl_pass1_get b (fun v w => v - w) a.elements
    (Matrix.new a.numRows a.numCols) (r, c) ha]
  simp only [Matrix.getElement, Matrix.new, mapGet]
  rcases hga : mapGet a.elements (r, c) with _ | v <;>
    rcases hgb : mapGet b.elements (r, c) with _ | w <;>
    simp only [orZero] <;> split_ifs <;> simp [orZero] <;> omega

/-- C2 witness at the spec scenario matrices. -/
theorem claim_C2_witness :
    ∃ m, matA.subtract matB = .ok m ∧ m.numRows = matA.numRows ∧ m.numCols = matA.numCols ∧
      ∀ r c : Int, m.getElement r c =
        if matA.getElement r c - matB.getElement r c = 0 then -(matB.getElement r c)
        else matA.getElement r c - matB.getElement r c :=
  claim_C2 matA matB (by decide) (by decide) (by decide) (by decide)

/-- C3: `add` and `subtract` fail with `DimensionMismatch` exactly when the
two shapes differ, `multiply` exactly when `this.cols ≠ other.rows`; each
succeeds otherwise, and a successful `multiply` has dimensions
`(this.rows, other.cols)`. -/
theorem claim_C3 (a b : Matrix) :
    (a.add b = .error .DimensionMismatch ↔
      (a.numRows ≠ b.numRows ∨ a.numCols ≠ b.numCols)) ∧
    ((∃ m, a.add b = .ok m) ↔ (a.numRows = b.numRows ∧ a.numCols = b.numCols)) ∧
    (a.subtract b = .error .DimensionMismatch ↔
      (a.numRows ≠ b.numRows ∨ a.numCols ≠ b.numCols)) ∧
    ((∃ m, a.subtract b = .ok m) ↔ (a.numRows = b.numRows ∧ a.numCols = b.numCols)) ∧
    (a.multiply b = .error .DimensionMismatch ↔ a.numCols ≠ b.numRows) ∧
    ((∃ m, a.multiply b = .ok m) ↔ a.numCols = b.numRows) ∧
    (∀ m, a.multiply b = .ok m → m.numRows = a.numRows ∧ m.numCols = b.numCols) := by
  refine ⟨?_, ?_, ?_, ?_, ?_, ?_, ?_⟩
  · rw [Matrix.add]; split <;> rename_i h
    · exact iff_of_true rfl h
    · exact iff_of_false (by simp) h
  · rw [Matrix.add]; split <;> rename_i h
    · exact iff_of_false (by simp) (by tauto)
    · exact iff_of_true ⟨_, rfl⟩ (by push_neg at h; exact h)
  · rw [Matrix.subtract]; split <;> rename_i h
    · exact iff_of_true rfl h
    · exact iff_of_false (by simp) h
  · rw [Matrix.subtract]; split <;> rename_i h
    · exact iff_of_false (by simp) (by tauto)
    · exact iff_of_true ⟨_, rfl⟩ (by push_neg at h; exact h)
  · rw [Matrix.multiply]; split <;> rename_i h
    · exact iff_of_true rfl h
    · exact iff_of_false (by simp) h
  · rw [Matrix.multiply]; split <;> rename_i h
    · exact iff_of_false (by simp) (by tauto)
    · exact iff_of_true ⟨_, rfl⟩ (by push_neg at h; exact h)
  · intro m hm
    rw [Matrix.multiply] at hm
    split at hm
    · cases hm
    · cases hm
      have hd := foldl_dims (fun result kvA => b.elements.foldl (mulStep kvA) result)
        (fun acc kvA => foldl_dims (mulStep kvA) (fun acc2 kvB => mulStep_dims kvA acc2 kvB)
          b.elements acc) a.elements (Matrix.new a.numRows b.numCols)
      exact hd

/-- C3 witness: the spec's dimension-mismatch examples (2×3 plus 3×2,
2×3 times 4×5), a matching multiply, and its result dimensions. -/
theorem claim_C3_witness :
    (Matrix.new 2 3).add (Matrix.new 3 2) = .error .DimensionMismatch ∧
    (Matrix.new 2 3).subtract (Matrix.new 3 2) = .error .DimensionMismatch ∧
    (Matrix.new 2 3).multiply (Matrix.new 4 5) = .error .DimensionMismatch ∧
    ((Matrix.new 2 4 : Matrix).numRows = (Matrix.new 2 3).numRows ∧
      (Matrix.new 2 4 : Matrix).numCols = (Matrix.new 3 4).numCols) :=
  ⟨(claim_C3 (Matrix.new 2 3) (Matrix.new 3 2)).1.mpr (by decide),
   (claim_C3 (Matrix.new 2 3) (Matrix.new 3 2)).2.2.1.mpr (by decide),
   (claim_C3 (Matrix.new 2 3) (Matrix.new 4 5)).2.2.2.2.1.mpr (by decide),
   (claim_C3 (Matrix.new 2 3) (Matrix.new 3 4)).2.2.2.2.2.2 (Matrix.new 2 4) (by decide)⟩

/-- C4: with A = 1×2 holding A(0,0)=1, A(0,1)=1 and B = 2×1 holding
B(0,0)=5, B(1,0)=−5, `A.multiply(B).getElement(0,0)` is the stale partial
sum 5, while the mathematical dot product Σₖ A(0,k)·B(k,0) is 0: the final
accumulation `5 + (-5) = 0` is dropped by `setElement` and the previously
stored 5 remains. -/
theorem claim_C4 :
    (c4A.multiply c4B).map (fun m => m.getElement 0 0) = Except.ok 5 ∧
    c4A.getElement 0 0 * c4B.getElement 0 0 +
      c4A.getElement 0 1 * c4B.getElement 1 0 = 0 ∧
    (5 : Int) ≠ 0 := by decide

/-- C5: the spec scenario — A = 2×2 {(0,0)=5, (1,1)=3},
B = 2×2 {(0,0)=2, (0,1)=4}: `A.add(B)` has exactly the entries
{(0,0)=7, (0,1)=4, (1,1)=3}, `A.subtract(B)` exactly
{(0,0)=3, (0,1)=−4, (1,1)=3}, `A.multiply(B)` exactly
{(0,0)=10, (0,1)=20}. -/
theorem claim_C5 :
    matA.add matB = .ok (Matrix.mk 2 2 [((0,0),7), ((1,1),3), ((0,1),4)]) ∧
    List.Perm [((0,0),7), ((1,1),3), ((0,1),4)]
      [(((0:Int),(0:Int)),(7:Int)), ((0,1),4), ((1,1),3)] ∧
    matA.subtract matB = .ok (Matrix.mk 2 2 [((0,0),3), ((1,1),3), ((0,1),-4)]) ∧
    List.Perm [((0,0),3), ((1,1),3), ((0,1),-4)]
      [(((0:Int),(0:Int)),(3:Int)), ((0,1),-4), ((1,1),3)] ∧
    matA.multiply matB = .ok (Matrix.mk 2 2 [((0,0),10), ((0,1),20)]) ∧
    List.Perm [((0,0),10), ((0,1),20)] [(((0:Int),(0:Int)),(10:Int)), ((0,1),20)] := by
  decide

/-- C7: every matrix produced by the public interface — the constructor,
parsing, `add`, `subtract` or `multiply` — has no zero-valued entry in its
element map. -/
theorem claim_C7 :
    (∀ r c : Int, NoZero (Matrix.new r c)) ∧
    (∀ content (m : Matrix), parseMatrix content = .ok m → NoZero m) ∧
    (∀ (a b m : Matrix), a.add b = .ok m → NoZero m) ∧
    (∀ (a b m : Matrix), a.subtract b = .ok m → NoZero m) ∧
    (∀ (a b m : Matrix), a.multiply b = .ok m → NoZero m) := by
  refine ⟨new_noZero, ?_, ?_, ?_, ?_⟩
  · intro content m h
    rw [parseMatrix] at h
    split at h
    · cases h
    · split at h
      · cases h
      · split at h
        · cases h
        · split at h
          · cases h
          · exact parseLines_noZero _ _ _ (new_noZero _ _) h
  · intro a b m h
    rw [Matrix.add] at h
    split at h
    · cases h
    · cases h
      exact foldl_noZero _ (fun acc kv => pass2Step_noZero _ acc kv) _ _
        (foldl_noZero _ (fun acc kv => pass1Step_noZero b _ acc kv) _ _
          (new_noZero _ _))
  · intro a b m h
    rw [Matrix.subtract] at h
    split at h
    · cases h
    · cases h
      exact foldl_noZero _ (fun acc kv => pass2Step_noZero _ acc kv) _ _
        (foldl_noZero _ (fun acc kv => pass1Step_noZero b _ acc kv) _ _
          (new_noZero _ _))
  · intro a b m h
    rw [Matrix.multiply] at h
    split at h
    · cases h
    · cases h
      exact foldl_noZero _
        (fun acc kvA hacc => foldl_noZero (mulStep kvA)
          (fun acc2 kvB => mulStep_noZero kvA acc2 kvB) b.elements acc hacc)
        _ _ (new_noZero _ _)

/-- C7 witness: concrete instances for each producer. -/
theorem claim_C7_witness :
    NoZero (Matrix.mk 2 2 [((0,0),7), ((1,1),3), ((0,1),4)]) ∧
    NoZero (Matrix.mk 1 1 [((0,0),5)]) :=
  ⟨claim_C7.2.2.1 matA matB _ (by decide),
   claim_C7.2.1 ("rows=1\ncols=1\n(0, 0, 5)".toList) _ (by decide)⟩

/-- C8 counterexample: on a matrix holding 5 at (0,0), `setElement(0,0,0)`
leaves the entry in place and a subsequent `getElement(0,0)` returns 5,
not 0 — `setElement` never deletes. -/
theorem claim_C8_cex :
    (cexA.setElement 0 0 0).elements = [((0,0),5)] ∧
    (cexA.setElement 0 0 0).getElement 0 0 = 5 ∧
    (5 : Int) ≠ 0 := by decide

/-- C8 (amended): `setElement(row,col,value)` stores `value` at the key
when `value ≠ 0`; when `value = 0` it does nothing at all — the matrix is
unchanged, so a prior entry remains (and only when no prior entry exists
does `getElement` return 0). -/
theorem claim_C8 (m : Matrix) (r c v : Int) :
    (v ≠ 0 → (m.setElement r c v).getElement r c = v) ∧
    (v = 0 → m.setElement r c v = m) := by
  constructor
  · intro hv
    rw [Matrix.getElement, mapGet_setElement_self, if_neg hv, orZero_some]
  · intro hv
    simp [Matrix.setElement, hv]

/-- C8 witness: a non-zero store is readable back; a zero store on an
existing entry changes nothing. -/
theorem claim_C8_witness :
    (cexA.setElement 0 0 7).getElement 0 0 = 7 ∧
    cexA.setElement 0 0 0 = cexA :=
  ⟨(claim_C8 cexA 0 0 7).1 (by decide), (claim_C8 cexA 0 0 0).2 rfl⟩

/-- C9: `getElement` is total — it returns the stored value when the key
is present and the integer 0 when it is absent. -/
theorem claim_C9 (m : Matrix) (r c : Int) :
    (∀ v, mapGet m.elements (r, c) = some v → m.getElement r c = v) ∧
    (mapGet m.elements (r, c) = none → m.getElement r c = 0) := by
  constructor
  · intro v h
    rw [Matrix.getElement, h, orZero_some]
  · intro h
    rw [Matrix.getElement, h]
    rfl

/-- C9 witness: a present key returns its value, an absent key returns 0. -/
theorem claim_C9_witness :
    cexA.getElement 0 0 = 5 ∧ (Matrix.new 1 1).getElement 0 1 = 0 :=
  ⟨(claim_C9 cexA 0 0).1 5 (by decide), (claim_C9 (Matrix.new 1 1) 0 1).2 (by decide)⟩

/-! ## Digit and decimal-string lemmas -/

theorem charVal_decChar (d : Nat) (h : d < 10) : charVal (decChar d) = d := by
  interval_cases d <;> decide

theorem isDigitCh_decChar (d : Nat) (h : d < 10) : isDigitCh (decChar d) = true := by
  interval_cases d <;> decide

theorem isDigitCh_spec (c : Char) (h : isDigitCh c = true) :
    wsChar c = false ∧ c ≠ ',' ∧ c ≠ '(' ∧ c ≠ ')' ∧ c ≠ '-' ∧ c ≠ '+' ∧ c ≠ '\n' := by
  refine ⟨?_, ?_, ?_, ?_, ?_, ?_, ?_⟩
  · by_contra hw
    have hw' : wsChar c = true := by revert hw; cases wsChar c <;> simp
    rw [wsChar] at hw'
    simp only [Bool.or_eq_true, decide_eq_true_eq] at hw'
    rcases hw' with ((h1 | h1) | h1) | h1 <;> (subst h1; exact absurd h (by decide))
  all_goals intro he; subst he; exact absurd h (by decide)

theorem natDecAux_succ (f n : Nat) (acc : List Char) :
    natDecAux (f + 1) n acc =
      if n < 10 then decChar n :: acc
      else natDecAux f (n / 10) (decChar (n % 10) :: acc) := rfl

theorem natDec_small (n : Nat) (h : n < 10) : natDec n = [decChar n] := by
  rw [natDec, natDecAux_succ, if_pos h]

theorem natDecAux_append (n : Nat) : ∀ (f : Nat) (acc : List Char), n < f →
    natDecAux f n acc = natDec n ++ acc := by
  induction n using Nat.strong_induction_on with
  | _ n ih =>
    intro f acc hf
    rcases f with _ | f'
    · omega
    · rw [natDecAux_succ]
      by_cases h10 : n < 10
      · rw [if_pos h10, natDec_small n h10]
        rfl
      · have hd : n / 10 < n := Nat.div_lt_self (by omega) (by omega)
        rw [if_neg h10]
        rw [ih (n / 10) hd f' (decChar (n % 10) :: acc) (by omega)]
        conv_rhs => rw [natDec, natDecAux_succ, if_neg h10,
          ih (n / 10) hd n [decChar (n % 10)] hd]
        simp

theorem natDec_big (n : Nat) (h : 10 ≤ n) :
    natDec n = natDec (n / 10) ++ [decChar (n % 10)] := by
  have hd : n / 10 < n := Nat.div_lt_self (by omega) (by omega)
  rw [natDec, natDecAux_succ, if_neg (by omega)]
  exact natDecAux_append (n / 10) n [decChar (n % 10)] hd

theorem natDec_ne_nil (n : Nat) : natDec n ≠ [] := by
  by_cases h : n < 10
  · rw [natDec_small n h]; simp
  · rw [natDec_big n (by omega)]; simp

theorem natDec_digits (n : Nat) : ∀ c ∈ natDec n, isDigitCh c = true := by
  induction n using Nat.strong_induction_on with
  | _ n ih =>
    intro c hc
    by_cases h : n < 10
    · rw [natDec_small n h] at hc
      simp at hc; subst hc; exact isDigitCh_decChar n h
    · rw [natDec_big n (by omega)] at hc
      rcases List.mem_append.1 hc with h1 | h1
      · exact ih (n / 10) (Nat.div_lt_self (by omega) (by omega)) c h1
      · simp at h1; subst h1
        exact isDigitCh_decChar _ (Nat.mod_lt _ (by omega))

theorem natDec_foldl (n : Nat) : ∀ k : Nat,
    (natDec n).foldl (fun acc c => acc * 10 + charVal c) k =
      k * 10 ^ (natDec n).length + n := by
  induction n using Nat.strong_induction_on with
  | _ n ih =>
    intro k
    by_cases h : n < 10
    · rw [natDec_small n h]
      simp [charVal_decChar n h]
    · have hd : n / 10 < n := Nat.div_lt_self (by omega) (by omega)
      rw [natDec_big n (by omega), List.foldl_append, ih (n / 10) hd k]
      simp only [List.foldl_cons, List.foldl_nil,
        charVal_decChar (n % 10) (Nat.mod_lt _ (by omega)),
        List.length_append, List.length_cons, List.length_nil, pow_succ, ← mul_assoc]
      generalize k * 10 ^ (natDec (n / 10)).length = M
      omega

theorem parseDigits_natDec (n : Nat) : parseDigits (natDec n) = some n := by
  have h1 : (natDec n).takeWhile isDigitCh = natDec n :=
    List.takeWhile_eq_self_iff.mpr (natDec_digits n)
  have h2 : (natDec n).isEmpty = false := List.isEmpty_eq_false.mpr (natDec_ne_nil n)
  simp only [parseDigits, h1, h2, Bool.false_eq_true, if_false]
  rw [natDec_foldl n 0]
  simp

theorem intDec_chars (i : Int) : ∀ c ∈ intDec i, c = '-' ∨ isDigitCh c = true := by
  intro c hc
  rw [intDec] at hc
  split at hc
  · rcases List.mem_cons.1 hc with h1 | h1
    · left; exact h1
    · right; exact natDec_digits _ c h1
  · right; exact natDec_digits _ c hc

theorem intDec_not_ws (i : Int) : ∀ c ∈ intDec i, wsChar c = false := by
  intro c hc
  rcases intDec_chars i c hc with h | h
  · subst h; decide
  · exact (isDigitCh_spec c h).1

theorem intDec_not_mem (i : Int) :
    ',' ∉ intDec i ∧ '(' ∉ intDec i ∧ ')' ∉ intDec i ∧ '\n' ∉ intDec i := by
  refine ⟨?_, ?_, ?_, ?_⟩ <;>
    (intro hm; rcases intDec_chars i _ hm with h | h <;> exact absurd h (by decide))

theorem intDec_ne_nil (i : Int) : intDec i ≠ [] := by
  rw [intDec]; split
  · simp
  · exact natDec_ne_nil _

theorem jsParseInt_intDec (i : Int) : jsParseInt (intDec i) = some i := by
  rw [intDec]
  split <;> rename_i hi
  · rw [jsParseInt, List.dropWhile_cons, if_neg (by decide)]
    dsimp only
    rw [if_pos rfl, parseDigits_natDec]
    show some (-(Int.ofNat i.natAbs)) = some i
    congr 1
    simp only [Int.ofNat_eq_natCast]
    omega
  · rcases hn : natDec i.natAbs with _ | ⟨c, t⟩
    · exact absurd hn (natDec_ne_nil _)
    · have hc : isDigitCh c = true := natDec_digits _ c (by rw [hn]; simp)
      have hspec := isDigitCh_spec c hc
      rw [jsParseInt, List.dropWhile_cons, if_neg (by rw [hspec.1]; simp)]
      dsimp only
      rw [if_neg hspec.2.2.2.2.1, if_neg hspec.2.2.2.2.2.1, ← hn, parseDigits_natDec]
      show some (Int.ofNat i.natAbs) = some i
      congr 1
      simp only [Int.ofNat_eq_natCast]
      omega

/-! ## Trim, split, join and indexOf lemmas -/

theorem dropWhile_of_all_false {p : Char → Bool} (l : List Char)
    (h : ∀ c ∈ l, p c = false) : List.dropWhile p l = l := by
  cases l with
  | nil => rfl
  | cons a t => rw [List.dropWhile_cons, if_neg (by rw [h a (by simp)]; simp)]

theorem jsTrim_of_all_not_ws (l : List Char) (h : ∀ c ∈ l, wsChar c = false) :
    jsTrim l = l := by
  rw [jsTrim, dropWhile_of_all_false l h,
    dropWhile_of_all_false _ (fun c hc => h c (List.mem_reverse.1 hc)),
    List.reverse_reverse]

theorem jsTrim_space_cons (l : List Char) (h : ∀ c ∈ l, wsChar c = false) :
    jsTrim (' ' :: l) = l := by
  rw [jsTrim, List.dropWhile_cons, if_pos (by decide), dropWhile_of_all_false l h,
    dropWhile_of_all_false _ (fun c hc => h c (List.mem_reverse.1 hc)),
    List.reverse_reverse]

theorem jsJoinSep_single (sep : Char) (l : List Char) : jsJoinSep sep [l] = l := rfl

theorem jsJoinSep_cons_cons (sep : Char) (l l2 : List Char) (L : List (List Char)) :
    jsJoinSep sep (l :: l2 :: L) = l ++ sep :: jsJoinSep sep (l2 :: L) := rfl

theorem jsTrim_eq_self_of_ends (l : List Char)
    (hh : ∀ c, l.head? = some c → wsChar c = false)
    (hl : ∀ c, l.getLast? = some c → wsChar c = false) : jsTrim l = l := by
  cases l with
  | nil => rfl
  | cons a t =>
    have ha : wsChar a = false := hh a rfl
    rw [jsTrim, List.dropWhile_cons, if_neg (by rw [ha]; simp)]
    obtain ⟨b, rt, hr⟩ : ∃ b rt, (a :: t).reverse = b :: rt := by
      rcases hx : (a :: t).reverse with _ | ⟨b, rt⟩
      · simp at hx
      · exact ⟨b, rt, rfl⟩
    have hab : a :: t = rt.reverse ++ [b] := by
      rw [← List.reverse_reverse (a :: t), hr]
      simp
    have hb : wsChar b = false := hl b (by rw [hab]; exact List.getLast?_concat _)
    rw [hr, List.dropWhile_cons, if_neg (by rw [hb]; simp), List.reverse_cons, ← hab]

theorem jsSplitOn_not_mem (sep : Char) (l : List Char) (h : sep ∉ l) :
    jsSplitOn sep l = [l] := by
  induction l with
  | nil => rfl
  | cons c t ih =>
    rw [jsSplitOn, if_neg (fun he => h (by simp [he])),
      ih (fun hm => h (List.mem_cons_of_mem _ hm))]

theorem jsSplitOn_append (sep : Char) (l t : List Char) (h : sep ∉ l) :
    jsSplitOn sep (l ++ sep :: t) = l :: jsSplitOn sep t := by
  induction l with
  | nil => rw [List.nil_append, jsSplitOn, if_pos rfl]
  | cons c l' ih =>
    have hc : ¬(c = sep) := fun he => h (by simp [he])
    rw [List.cons_append, jsSplitOn, if_neg hc,
      ih (fun hm => h (List.mem_cons_of_mem _ hm))]

theorem jsSplitOn_join (sep : Char) (L : List (List Char)) (hL : L ≠ [])
    (hm : ∀ l ∈ L, sep ∉ l) : jsSplitOn sep (jsJoinSep sep L) = L := by
  induction L with
  | nil => exact absurd rfl hL
  | cons l L' ih =>
    rcases L' with _ | ⟨l2, L''⟩
    · rw [jsJoinSep_single]
      exact jsSplitOn_not_mem sep l (hm l (by simp))
    · rw [jsJoinSep_cons_cons, jsSplitOn_append sep l _ (hm l (by simp)),
        ih (List.cons_ne_nil _ _) (fun x hx => hm x (List.mem_cons_of_mem _ hx))]

theorem jsJoinSep_head_cons (sep a : Char) (t : List Char) (rest : List (List Char)) :
    (jsJoinSep sep ((a :: t) :: rest)).head? = some a := by
  cases rest <;> rfl

theorem jsJoinSep_head_of_ne_nil (sep : Char) (l : List Char) (rest : List (List Char))
    (h : l ≠ []) : (jsJoinSep sep (l :: rest)).head? = l.head? := by
  cases rest with
  | nil => rfl
  | cons l2 L => rw [jsJoinSep_cons_cons, List.head?_append_of_ne_nil l h]

theorem jsJoinSep_getLast_concat (sep : Char) (ls : List (List Char)) (l : List Char)
    (h : l ≠ []) : (jsJoinSep sep (ls ++ [l])).getLast? = l.getLast? := by
  induction ls with
  | nil => rfl
  | cons a ls' ih =>
    have hne : jsJoinSep sep (ls' ++ [l]) ≠ [] := by
      intro hnil
      have h2 : l.getLast? = none := by rw [← ih, hnil]; rfl
      exact h (List.getLast?_eq_none_iff.1 h2)
    have hshape : jsJoinSep sep ((a :: ls') ++ [l]) =
        a ++ sep :: jsJoinSep sep (ls' ++ [l]) := by
      obtain ⟨x, xs, hsh⟩ : ∃ x xs, ls' ++ [l] = x :: xs := by
        cases ls' <;> exact ⟨_, _, rfl⟩
      rw [List.cons_append, hsh, jsJoinSep_cons_cons, ← hsh]
    rw [hshape, List.getLast?_append_of_ne_nil a (List.cons_ne_nil _ _)]
    have hcons : sep :: jsJoinSep sep (ls' ++ [l]) = [sep] ++ jsJoinSep sep (ls' ++ [l]) := rfl
    rw [hcons, List.getLast?_append_of_ne_nil _ hne, ih]

theorem jsIndexOf_head (s : List Char) (c : Char) : jsIndexOf (c :: s) c = some 0 := by
  rw [jsIndexOf, if_pos rfl]

theorem jsIndexOf_append (l t : List Char) (c : Char) (h : c ∉ l) :
    jsIndexOf (l ++ c :: t) c = some l.length := by
  induction l with
  | nil => rw [List.nil_append, jsIndexOf_head]; rfl
  | cons a l' ih =>
    have ha : ¬(a = c) := fun he => h (by simp [he])
    rw [List.cons_append, jsIndexOf, if_neg ha, ih (fun hm => h (List.mem_cons_of_mem _ hm))]
    rfl

theorem mem_jsJoinSep (sep : Char) (L : List (List Char)) (c : Char)
    (h : c ∈ jsJoinSep sep L) : c = sep ∨ ∃ l ∈ L, c ∈ l := by
  induction L with
  | nil => simp [jsJoinSep] at h
  | cons l L' ih =>
    rcases L' with _ | ⟨l2, L''⟩
    · rw [jsJoinSep_single] at h
      exact Or.inr ⟨l, by simp, h⟩
    · rw [jsJoinSep_cons_cons] at h
      rcases List.mem_append.1 h with h1 | h1
      · exact Or.inr ⟨l, by simp, h1⟩
      · rcases List.mem_cons.1 h1 with h2 | h2
        · exact Or.inl h2
        · rcases ih h2 with h3 | ⟨x, hx, hcx⟩
          · exact Or.inl h3
          · exact Or.inr ⟨x, List.mem_cons_of_mem _ hx, hcx⟩

/-! ## Parsing the serialized form back -/

theorem jsStartsWith_append (pfx rest : List Char) :
    jsStartsWith (pfx ++ rest) pfx = true := by
  simp [jsStartsWith, List.take_left]

theorem extractNumber_append (pfx : List Char) (i : Int) :
    extractNumber (pfx ++ intDec i) pfx = .ok i := by
  rw [extractNumber, jsStartsWith_append, if_pos rfl, List.drop_left,
    jsTrim_of_all_not_ws _ (intDec_not_ws i), jsParseInt_intDec]

theorem mid_chars (r c v : Int) :
    ∀ ch ∈ jsJoinSep ',' [intDec r, ' ' :: intDec c, ' ' :: intDec v],
      ch = ',' ∨ ch = ' ' ∨ ch ∈ intDec r ∨ ch ∈ intDec c ∨ ch ∈ intDec v := by
  intro ch hch
  rcases mem_jsJoinSep ',' _ ch hch with h | ⟨l, hl, hcl⟩
  · exact Or.inl h
  · simp only [List.mem_cons, List.not_mem_nil, or_false] at hl
    rcases hl with h1 | h1 | h1 <;> subst h1
    · tauto
    · rcases List.mem_cons.1 hcl with h2 | h2 <;> tauto
    · rcases List.mem_cons.1 hcl with h2 | h2 <;> tauto

theorem extractValues_wrapped (r c v : Int) :
    extractValues
      ('(' :: jsJoinSep ',' [intDec r, ' ' :: intDec c, ' ' :: intDec v] ++ [')']) =
      .ok (r, c, v) := by
  have hrp : ')' ∉ ('(' :: jsJoinSep ',' [intDec r, ' ' :: intDec c, ' ' :: intDec v]) := by
    intro hmem
    rcases List.mem_cons.1 hmem with h | h
    · exact absurd h (by decide)
    · rcases mid_chars r c v ')' h with h1 | h1 | h1 | h1 | h1
      · exact absurd h1 (by decide)
      · exact absurd h1 (by decide)
      all_goals exact absurd h1 (intDec_not_mem _).2.2.1
  rw [List.cons_append]
  have h1 : jsIndexOf
      ('(' :: (jsJoinSep ',' [intDec r, ' ' :: intDec c, ' ' :: intDec v] ++ [')'])) '(' =
      some 0 := jsIndexOf_head _ '('
  have h2 : jsIndexOf
      ('(' :: (jsJoinSep ',' [intDec r, ' ' :: intDec c, ' ' :: intDec v] ++ [')'])) ')' =
      some ((jsJoinSep ',' [intDec r, ' ' :: intDec c, ' ' :: intDec v]).length + 1) := by
    have h3 := jsIndexOf_append
      ('(' :: jsJoinSep ',' [intDec r, ' ' :: intDec c, ' ' :: intDec v]) [] ')' hrp
    simpa using h3
  rw [extractValues, h1, h2]
  dsimp only
  have h3 : jsSlice
      ('(' :: (jsJoinSep ',' [intDec r, ' ' :: intDec c, ' ' :: intDec v] ++ [')']))
      (0 + 1) ((jsJoinSep ',' [intDec r, ' ' :: intDec c, ' ' :: intDec v]).length + 1) =
      jsJoinSep ',' [intDec r, ' ' :: intDec c, ' ' :: intDec v] := by
    rw [jsSlice, ← List.cons_append,
      List.take_left' (by simp : ('(' :: jsJoinSep ',' [intDec r, ' ' :: intDec c, ' ' :: intDec v]).length = (jsJoinSep ',' [intDec r, ' ' :: intDec c, ' ' :: intDec v]).length + 1)]
    rfl
  rw [h3]
  have h4 : jsSplitOn ',' (jsJoinSep ',' [intDec r, ' ' :: intDec c, ' ' :: intDec v]) =
      [intDec r, ' ' :: intDec c, ' ' :: intDec v] := by
    apply jsSplitOn_join
    · exact List.cons_ne_nil _ _
    · intro l hl
      simp only [List.mem_cons, List.not_mem_nil, or_false] at hl
      rcases hl with hl1 | hl1 | hl1 <;> subst hl1
      · exact (intDec_not_mem r).1
      · intro hmem
        rcases List.mem_cons.1 hmem with h5 | h5
        · exact absurd h5 (by decide)
        · exact (intDec_not_mem c).1 h5
      · intro hmem
        rcases List.mem_cons.1 hmem with h5 | h5
        · exact absurd h5 (by decide)
        · exact (intDec_not_mem v).1 h5
  rw [h4]
  dsimp only
  rw [jsTrim_of_all_not_ws _ (intDec_not_ws r), jsTrim_space_cons _ (intDec_not_ws c),
    jsTrim_space_cons _ (intDec_not_ws v),
    jsParseInt_intDec r, jsParseInt_intDec c, jsParseInt_intDec v]

theorem extractValues_elemLine (kv : (Int × Int) × Int) :
    extractValues (elemLine kv) = .ok (kv.1.1, kv.1.2, kv.2) :=
  extractValues_wrapped kv.1.1 kv.1.2 kv.2

theorem elemLine_ne_nil (kv : (Int × Int) × Int) : elemLine kv ≠ [] := by
  rw [elemLine]
  simp

theorem elemLine_head (kv : (Int × Int) × Int) : (elemLine kv).head? = some '(' := rfl

theorem elemLine_getLast (kv : (Int × Int) × Int) :
    (elemLine kv).getLast? = some ')' := List.getLast?_concat _

theorem jsTrim_elemLine (kv : (Int × Int) × Int) :
    jsTrim (elemLine kv) = elemLine kv := by
  apply jsTrim_eq_self_of_ends
  · intro c hc
    rw [elemLine_head] at hc
    cases hc
    decide
  · intro c hc
    rw [elemLine_getLast] at hc
    cases hc
    decide

theorem elemLine_no_nl (kv : (Int × Int) × Int) : '\n' ∉ elemLine kv := by
  intro h
  rcases List.mem_append.1 h with h1 | h1
  · rcases List.mem_cons.1 h1 with h2 | h2
    · exact absurd h2 (by decide)
    · rcases mid_chars kv.1.1 kv.1.2 kv.2 '\n' h2 with h3 | h3 | h3 | h3 | h3
      · exact absurd h3 (by decide)
      · exact absurd h3 (by decide)
      all_goals exact absurd h3 (intDec_not_mem _).2.2.2
  · simp only [List.mem_singleton] at h1
    exact absurd h1 (by decide)

theorem getLast?_append_intDec (pre : List Char) (i : Int) (c : Char)
    (hc : (pre ++ intDec i).getLast? = some c) : wsChar c = false := by
  rw [List.getLast?_append_of_ne_nil pre (intDec_ne_nil i)] at hc
  rcases List.mem_getLast?_eq_getLast hc with ⟨hne, heq⟩
  exact intDec_not_ws i c (heq ▸ List.getLast_mem hne)

theorem parseLines_elemLines (l : List ((Int × Int) × Int)) : ∀ (m : Matrix),
    (∀ kv ∈ l, mapGet m.elements kv.1 = none) →
    (l.map Prod.fst).Nodup → (∀ kv ∈ l, kv.2 ≠ 0) →
    parseLines (l.map elemLine) m =
      .ok (Matrix.mk m.numRows m.numCols (m.elements ++ l)) := by
  induction l with
  | nil =>
    intro m _ _ _
    rw [List.map_nil, parseLines, List.append_nil]
  | cons kv rest ih =>
    intro m hnone hnd hnz
    rw [List.map_cons, parseLines, jsTrim_elemLine kv, if_neg (elemLine_ne_nil kv),
      extractValues_elemLine kv]
    dsimp only
    simp only [List.map_cons, List.nodup_cons] at hnd
    have hv : kv.2 ≠ 0 := hnz kv (List.mem_cons_self _ _)
    have hget : mapGet m.elements (kv.1.1, kv.1.2) = none := by
      have h1 := hnone kv (List.mem_cons_self _ _)
      simpa using h1
    have hset : (m.setElement kv.1.1 kv.1.2 kv.2).elements = m.elements ++ [kv] := by
      rw [Matrix.setElement, if_pos hv]
      show mapSet m.elements (kv.1.1, kv.1.2) kv.2 = m.elements ++ [kv]
      rw [mapSet_of_get_none _ _ _ hget]
    rw [ih (m.setElement kv.1.1 kv.1.2 kv.2) ?_ hnd.2
      (fun x hx => hnz x (List.mem_cons_of_mem _ hx))]
    · rw [setElement_numRows, setElement_numCols, hset, List.append_assoc,
        List.singleton_append]
    · intro x hx
      rw [hset, mapGet_append, hnone x (List.mem_cons_of_mem _ hx)]
      have hne : ¬(kv.1 = x.1) := fun he => hnd.1 (he ▸ List.mem_map_of_mem Prod.fst hx)
      simp [mapGet, hne]

theorem serialize_lines (m : Matrix) :
    jsSplitOn '\n' (jsTrim (serialize m)) =
      (rowsPfx ++ intDec m.numRows) :: (colsPfx ++ intDec m.numCols) ::
        m.elements.map elemLine := by
  have hnl : ∀ l ∈ (rowsPfx ++ intDec m.numRows) :: (colsPfx ++ intDec m.numCols) ::
      m.elements.map elemLine, '\n' ∉ l := by
    intro l hl
    rcases List.mem_cons.1 hl with h1 | h1
    · subst h1
      intro hm
      rcases List.mem_append.1 hm with h2 | h2
      · exact absurd h2 (by decide)
      · exact (intDec_not_mem _).2.2.2 h2
    · rcases List.mem_cons.1 h1 with h2 | h2
      · subst h2
        intro hm
        rcases List.mem_append.1 hm with h3 | h3
        · exact absurd h3 (by decide)
        · exact (intDec_not_mem _).2.2.2 h3
      · rcases List.mem_map.1 h2 with ⟨kv, _, hkv⟩
        rw [← hkv]
        exact elemLine_no_nl kv
  have htrim : jsTrim (serialize m) = serialize m := by
    apply jsTrim_eq_self_of_ends
    · intro c hc
      rw [serialize, jsJoinSep_head_of_ne_nil _ _ _ (by simp [rowsPfx]),
        List.head?_append_of_ne_nil rowsPfx (by decide)] at hc
      simp only [rowsPfx, List.head?_cons, Option.some.injEq] at hc
      rw [← hc]
      decide
    · intro c hc
      rw [serialize] at hc
      rcases List.eq_nil_or_concat m.elements with hE | ⟨init, lastE, hE⟩
      · rw [hE] at hc
        have hshape : (rowsPfx ++ intDec m.numRows) :: (colsPfx ++ intDec m.numCols) ::
            List.map elemLine [] =
            [rowsPfx ++ intDec m.numRows] ++ [colsPfx ++ intDec m.numCols] := by simp
        rw [hshape, jsJoinSep_getLast_concat _ _ _ (by simp [colsPfx])] at hc
        exact getLast?_append_intDec colsPfx m.numCols c hc
      · rw [List.concat_eq_append] at hE
        rw [hE] at hc
        have hshape : (rowsPfx ++ intDec m.numRows) :: (colsPfx ++ intDec m.numCols) ::
            List.map elemLine (init ++ [lastE]) =
            ((rowsPfx ++ intDec m.numRows) :: (colsPfx ++ intDec m.numCols) ::
              List.map elemLine init) ++ [elemLine lastE] := by simp
        rw [hshape, jsJoinSep_getLast_concat _ _ _ (elemLine_ne_nil lastE),
          elemLine_getLast] at hc
        cases hc
        decide
  rw [htrim, serialize]
  exact jsSplitOn_join '\n' _ (List.cons_ne_nil _ _) hnl

/-- C6: for every matrix whose element map has duplicate-free keys and no
zero-valued entry, parsing the serialized text reproduces the matrix
exactly: same rows, same cols, and the very same element list. -/
theorem claim_C6 (m : Matrix) (hnd : (m.elements.map Prod.fst).Nodup)
    (hnz : ∀ kv ∈ m.elements, kv.2 ≠ 0) :
    parseMatrix (serialize m) = .ok m := by
  rw [parseMatrix, serialize_lines m]
  dsimp only
  rw [extractNumber_append rowsPfx m.numRows]
  dsimp only
  rw [extractNumber_append colsPfx m.numCols]
  dsimp only
  rw [parseLines_elemLines m.elements (Matrix.new m.numRows m.numCols)
    (fun kv _ => rfl) hnd hnz]
  rfl

/-- C6 witness at the spec scenario matrix A. -/
theorem claim_C6_witness : parseMatrix (serialize matA) = .ok matA :=
  claim_C6 matA (by decide) (by decide)

/-- C10: parsing fails with `FormatError` when the first line does not
start with the exact prefix `rows=` (e.g. `ROWS=2`), and on a data line
that lacks the parentheses or whose parenthesized content does not split
into exactly three comma-separated components (e.g. `(1,2)`). -/
theorem claim_C10 :
    (∀ (content l0 : List Char) (rest : List (List Char)),
      jsSplitOn '\n' (jsTrim content) = l0 :: rest →
      jsStartsWith l0 rowsPfx = false →
      parseMatrix content = .error .FormatError) ∧
    parseMatrix ("rows=2\ncols=2\n1, 2, 3".toList) = .error .FormatError ∧
    parseMatrix ("rows=2\ncols=2\n(1,2)".toList) = .error .FormatError := by
  refine ⟨?_, by decide, by decide⟩
  intro content l0 rest hsplit hsw
  rw [parseMatrix, hsplit]
  dsimp only
  have hen : extractNumber l0 rowsPfx = .error .FormatError := by
    rw [extractNumber, hsw]
    simp
  rw [hen]

/-- C10 witness: the spec's wrong-case header example `ROWS=2`. -/
theorem claim_C10_witness :
    parseMatrix ("ROWS=2\ncols=2".toList) = .error .FormatError :=
  claim_C10.1 ("ROWS=2\ncols=2".toList) ("ROWS=2".toList) ["cols=2".toList]
    (by decide) (by decide)

end SparseMatrix
